import Mathlib

/-!
Verification development for the tqec compilation core.

The development shallowly embeds the block-graph data model, the template
engine, the plaquette/scheduling layer and the correlation-surface search of
the tqec compiler, and proves the testable properties stated for them.
Components whose implementation is not part of the available sources are
modelled from the specification text; such definitions carry a doc comment
starting with "Modelled from the spec:".  The memory-experiment circuit and
the extended-plaquette circuit are transcribed from the circuits shipped in
the repository documentation (gallery notebook and user guide).
-/

namespace TQEC

/-- Integer 3D coordinate; z is the time-like axis (spec, section 3). -/
structure Position3D where
  x : Int
  y : Int
  z : Int
deriving DecidableEq, Repr

/-- Manhattan distance between two positions; pure arithmetic on the integer
coordinates (spec, section 3). -/
def manhattan_distance (a b : Position3D) : ℕ :=
  (a.x - b.x).natAbs + (a.y - b.y).natAbs + (a.z - b.z).natAbs

/-- Boolean lexicographic order on positions: first x, then y, then z.  This is
the fixed traversal order used to make the correlation-surface search
order-stable (spec, section 4.1). -/
def posLE (a b : Position3D) : Bool :=
  if a.x ≠ b.x then a.x < b.x
  else if a.y ≠ b.y then a.y < b.y
  else a.z ≤ b.z

/-- Boundary basis of a cube face or pipe wall. -/
inductive Basis
  | X
  | Z
deriving DecidableEq, Repr

/-- Basis change applied by a Hadamard-type pipe. -/
def Basis.flip : Basis → Basis
  | .X => .Z
  | .Z => .X

/-- Coordinate axes of the 3D spacetime. -/
inductive Direction3D
  | X
  | Y
  | Z
deriving DecidableEq, Repr

/-- Shift a position along an axis by a signed amount. -/
def Position3D.shiftDir (p : Position3D) (d : Direction3D) (delta : Int) : Position3D :=
  match d with
  | .X => { p with x := p.x + delta }
  | .Y => { p with y := p.y + delta }
  | .Z => { p with z := p.z + delta }

/-- Modelled from the spec: the closed tagged-variant enumeration of cube kind
categories (boundary-basis cube over the three axes, half block for phase
gates, Port placeholder); spec, sections 3 and 9. -/
inductive CubeKind
  | ZXCube (bX bY bZ : Basis)
  | YHalfCube
  | Port
deriving DecidableEq, Repr

/-- Boundary basis of a boundary-basis cube along a given axis. -/
def CubeKind.basisAlong : CubeKind → Direction3D → Option Basis
  | .ZXCube bX _ _, .X => some bX
  | .ZXCube _ bY _, .Y => some bY
  | .ZXCube _ _ bZ, .Z => some bZ
  | _, _ => none

/-- The two axes transverse to a pipe direction, in axis order X before Y
before Z. -/
def transverseAxes : Direction3D → Direction3D × Direction3D
  | .X => (.Y, .Z)
  | .Y => (.X, .Z)
  | .Z => (.X, .Y)

/-- Modelled from the spec: a pipe kind is typed by direction, by the boundary
bases of its two transverse walls, and by an optional basis-change (Hadamard)
flag; spec, section 3. -/
structure PipeKind where
  direction : Direction3D
  wallA : Basis
  wallB : Basis
  hadamard : Bool
deriving DecidableEq, Repr

/-- Modelled from the spec: a pipe kind is consistent with an endpoint cube
when the cube boundary bases along both transverse axes match the pipe wall
bases; at the head endpoint the match is taken up to a basis flip when the
Hadamard flag is set.  Port and half cubes are unconstrained.  Spec,
section 4.1 (basis mismatch without an explicit Hadamard flag). -/
def compatibleAt (k : PipeKind) (c : CubeKind) (atHead : Bool) : Bool :=
  match c with
  | .Port => true
  | .YHalfCube => true
  | .ZXCube bX bY bZ =>
    let cb : Direction3D → Basis := fun d =>
      match d with
      | .X => bX
      | .Y => bY
      | .Z => bZ
    let axes := transverseAxes k.direction
    let adj : Basis → Basis := fun b => if atHead && k.hadamard then b.flip else b
    (cb axes.1 == adj k.wallA) && (cb axes.2 == adj k.wallB)

/-- Modelled from the spec: the BlockGraph container; a sparse arena of cubes
keyed by position (kept here as an association list of position, kind and
label), with pipes stored as edges keyed by the ordered pair of endpoint
positions; spec, sections 3 and 9. -/
structure BlockGraph where
  cubes : List (Position3D × CubeKind × String)
  pipes : List (Position3D × Position3D × PipeKind)
deriving DecidableEq, Repr

/-- The empty block graph. -/
def emptyGraph : BlockGraph := ⟨[], []⟩

/-- Kind of the cube stored at a position, if any. -/
def kindAt (g : BlockGraph) (p : Position3D) : Option CubeKind :=
  (g.cubes.find? (fun e => e.1 == p)).map (fun e => e.2.1)

/-- Structural errors raised at graph-construction time (spec, section 7). -/
inductive GraphError
  | occupied (pos : Position3D)
  | missingEndpoint (pos : Position3D)
  | notAdjacent (a b : Position3D) (distance : ℕ)
  | basisMismatch (a b : Position3D) (kind : PipeKind)
deriving DecidableEq, Repr

/-- Modelled from the spec: add_cube fails if the position is already
occupied; spec, section 4.1. -/
def add_cube (g : BlockGraph) (position : Position3D) (kind : CubeKind) (label : String) :
    Except GraphError BlockGraph :=
  if (kindAt g position).isSome then .error (.occupied position)
  else .ok { g with cubes := g.cubes ++ [(position, kind, label)] }

/-- Modelled from the spec: add_pipe fails if either position lacks a Cube, if
the positions are not adjacent (Manhattan distance 1), or if the pipe kind is
inconsistent with the two cube boundary bases without an explicit Hadamard
flag; spec, section 4.1, and the non-neighbor error message recorded in
src/ERROR_MESSAGE_IMPROVEMENTS.md which reports the Manhattan distance with
expected value 1. -/
def add_pipe (g : BlockGraph) (pos1 pos2 : Position3D) (kind : PipeKind) :
    Except GraphError BlockGraph :=
  match kindAt g pos1, kindAt g pos2 with
  | none, _ => .error (.missingEndpoint pos1)
  | some _, none => .error (.missingEndpoint pos2)
  | some c1, some c2 =>
    if manhattan_distance pos1 pos2 ≠ 1 then
      .error (.notAdjacent pos1 pos2 (manhattan_distance pos1 pos2))
    else if ¬(compatibleAt kind c1 false && compatibleAt kind c2 true) then
      .error (.basisMismatch pos1 pos2 kind)
    else .ok { g with pipes := g.pipes ++ [(pos1, pos2, kind)] }

/-- Incremental construction steps of a block graph (spec, section 3:
lifecycle, built incrementally by add cube / add pipe). -/
inductive BuildOp
  | addCube (pos : Position3D) (kind : CubeKind) (label : String)
  | addPipe (pos1 pos2 : Position3D) (kind : PipeKind)

/-- Apply one build operation; a failing operation leaves the graph
unchanged. -/
def applyOp (g : BlockGraph) : BuildOp → BlockGraph
  | .addCube p k l =>
    match add_cube g p k l with
    | .ok g2 => g2
    | .error _ => g
  | .addPipe p1 p2 k =>
    match add_pipe g p1 p2 k with
    | .ok g2 => g2
    | .error _ => g

/-- Graph built by a sequence of operations starting from the empty graph. -/
def buildGraph (ops : List BuildOp) : BlockGraph :=
  ops.foldl applyOp emptyGraph

/-- Error payload of the rounding helper; models the Python ValueError whose
message identifies the offending value. -/
structure ValErr where
  value : ℚ
deriving DecidableEq

/-- Round-half-to-even, the semantics of the Python builtin round applied to
the exact rational value. -/
def pyRound (q : ℚ) : ℤ :=
  let f := ⌊q⌋
  let frac := q - f
  if frac < 1 / 2 then f
  else if 1 / 2 < frac then f + 1
  else if Even f then f else f + 1

/-- Embedded from round_or_fail as quoted in src/unnamed/part_010: compute
rounded = round(value); raise ValueError identifying the value when
abs(value - rounded) > atol, otherwise return rounded.  Default
atol = 0.35. -/
def round_or_fail (value : ℚ) (atol : ℚ := 0.35) : Except ValErr ℤ :=
  let rounded := pyRound value
  if |value - (rounded : ℚ)| > atol then .error ⟨value⟩ else .ok rounded

/-- Decimal digits of a natural number, least significant first, computed with
explicit fuel so the definition is structurally recursive. -/
def digitsRev : ℕ → ℕ → List ℕ
  | 0, _ => []
  | _ + 1, 0 => []
  | fuel + 1, n + 1 => ((n + 1) % 10) :: digitsRev fuel ((n + 1) / 10)

/-- Value reconstructed from a least-significant-first digit list. -/
def ofDigitsRev (l : List ℕ) : ℕ :=
  l.foldr (fun d acc => d + 10 * acc) 0

/-- Decimal rendering of a natural number. -/
def natStr (n : ℕ) : String :=
  if n = 0 then "0" else ⟨((digitsRev n n).map Nat.digitChar).reverse⟩

/-- Label attached to an automatically created Port cube, as in the
Port{port_index} f-string of the interop reader quoted in
src/unnamed/part_010. -/
def portLabel (n : ℕ) : String :=
  "Port" ++ natStr n

/-- One lattice edge handed to the interop reader: the two transformed
endpoint positions and the pipe kind. -/
structure LatticeEdge where
  head : Position3D
  tail : Position3D
  kind : PipeKind
deriving DecidableEq, Repr

/-- Modelled from the spec and the interop notes quoted in
src/unnamed/part_010: when an edge endpoint has no cube yet, a Port cube with
a fresh label Port{port_index} is created there before the pipe is added. -/
def addPortIfMissing (g : BlockGraph) (pos : Position3D) (idx : ℕ) :
    Except GraphError (BlockGraph × ℕ) :=
  if (kindAt g pos).isSome then .ok (g, idx)
  else do
    let g2 ← add_cube g pos .Port (portLabel idx)
    .ok (g2, idx + 1)

/-- Process one lattice edge: create missing Port endpoints, then add the
pipe. -/
def processEdge (st : BlockGraph × ℕ) (e : LatticeEdge) :
    Except GraphError (BlockGraph × ℕ) := do
  let s1 ← addPortIfMissing st.1 e.head st.2
  let s2 ← addPortIfMissing s1.1 e.tail s1.2
  let g3 ← add_pipe s2.1 e.head e.tail e.kind
  .ok (g3, s2.2)

/-- Add the declared (non-port) lattice nodes as cubes. -/
def addNodes (g : BlockGraph) (nodes : List (Position3D × CubeKind × String)) :
    Except GraphError BlockGraph :=
  nodes.foldlM (fun acc n => add_cube acc n.1 n.2.1 n.2.2) g

/-- Modelled from the spec and src/unnamed/part_010: build a BlockGraph from
parsed lattice dictionaries by first adding the declared cubes and then the
pipes, automatically creating Port cubes with fresh Port{port_index} labels
for missing pipe endpoints. -/
def read_from_lattice_dicts (nodes : List (Position3D × CubeKind × String))
    (edges : List LatticeEdge) : Except GraphError BlockGraph := do
  let g0 ← addNodes emptyGraph nodes
  let st ← edges.foldlM processEdge (g0, 0)
  .ok st.1

/-- Labels of the Port cubes present in a graph. -/
def portLabels (g : BlockGraph) : List String :=
  g.cubes.filterMap (fun e => if e.2.1 == CubeKind.Port then some e.2.2 else none)

/-- Modelled from the spec: an integer-valued linear function of the scale
parameter k, recording one axis of a template footprint (LinearFunction in
the public API listing of src/unnamed/part_005). -/
structure LinearFunction where
  slope : ℕ
  offset : ℕ
deriving DecidableEq, Repr

/-- Value of a linear growth function at scale k. -/
def LinearFunction.eval (f : LinearFunction) (k : ℕ) : ℕ :=
  f.slope * k + f.offset

/-- Modelled from the spec: the pair of per-axis linear growth functions of a
template (Scalable2D in the public API listing of src/unnamed/part_005). -/
structure Scalable2D where
  x : LinearFunction
  y : LinearFunction
deriving DecidableEq, Repr

/-- Modelled from the spec: a Template is an immutable function from the scale
parameter to a 2D array of plaquette-class indices, with its footprint
recorded as two linear growth functions; spec, sections 3 and 4.2. -/
structure Template where
  scalable_shape : Scalable2D
  classAt : ℕ → ℕ → ℕ → ℕ

/-- Instantiate a template at scale k: the 2D array of class indices, with
the declared number of rows and columns. -/
def Template.instantiate (t : Template) (k : ℕ) : List (List ℕ) :=
  (List.range (t.scalable_shape.y.eval k)).map fun r =>
    (List.range (t.scalable_shape.x.eval k)).map fun c => t.classAt k r c

/-- Kinds of physical operations appearing in the embedded circuits: resets
(Z and X basis), two-qubit gates, and measurements (Z and X basis). -/
inductive OpKind
  | R
  | RX
  | CX
  | CZ
  | M
  | MX
deriving DecidableEq, Repr

/-- An operation is a kind together with its target qubit indices. -/
abbrev Operation := OpKind × List ℕ

/-- A moment is the set of operations executed simultaneously. -/
abbrev Moment := List Operation

/-- A scheduled circuit is the ordered sequence of its moments. -/
abbrev ScheduledCircuit := List Moment

/-- Reset operations. -/
def OpKind.isReset : OpKind → Bool
  | .R => true
  | .RX => true
  | _ => false

/-- Measurement operations. -/
def OpKind.isMeas : OpKind → Bool
  | .M => true
  | .MX => true
  | _ => false

/-- Two-qubit entangling operations. -/
def OpKind.isTwoQubit : OpKind → Bool
  | .CX => true
  | .CZ => true
  | _ => false

/-- All qubit indices touched by a moment. -/
def momentQubits (m : Moment) : List ℕ :=
  m.flatMap (fun op => op.2)

/-- The five two-qubit layers of one syndrome-extraction round of the d = 3
memory circuit, transcribed from the circuit shipped in the gallery notebook
(src/unnamed/part_006). -/
def memorySyndromeLayers : ScheduledCircuit :=
  [[(.CX, [6, 2, 10, 7, 12, 9]), (.CZ, [5, 1, 11, 8, 16, 13])],
   [(.CX, [6, 8, 10, 13, 12, 15]), (.CZ, [0, 2])],
   [(.CX, [4, 1, 6, 3, 10, 8]), (.CZ, [5, 2, 11, 9, 16, 14])],
   [(.CZ, [5, 7, 11, 14])],
   [(.CX, [4, 7, 6, 9, 10, 14]), (.CZ, [0, 3, 5, 8, 11, 15])]]

/-- The full circuit of the d = 3 (scale k = 1) logical-Z memory experiment on
the single-cube BlockGraph, transcribed moment by moment from the circuit
shipped in the gallery notebook (src/unnamed/part_006); detector and
observable annotations are not operations and are omitted. -/
def memoryCircuit_k1 : ScheduledCircuit :=
  [[(.R, [1, 2, 3, 7, 8, 9, 13, 14, 15]), (.RX, [0, 4, 5, 6, 10, 11, 12, 16])]]
    ++ memorySyndromeLayers
    ++ [[(.MX, [0, 4, 5, 6, 10, 11, 12, 16])]]
    ++ [[(.RX, [0, 4, 5, 6, 10, 11, 12, 16])]]
    ++ memorySyndromeLayers
    ++ [[(.MX, [0, 4, 5, 6, 10, 11, 12, 16])]]
    ++ [[(.RX, [0, 4, 5, 6, 10, 11, 12, 16])]]
    ++ memorySyndromeLayers
    ++ [[(.M, [1, 2, 3, 7, 8, 9, 13, 14, 15]), (.MX, [0, 4, 5, 6, 10, 11, 12, 16])]]

/-- Split a circuit into measurement rounds: each round ends at a moment that
contains a measurement. -/
def splitRoundsAux : ScheduledCircuit → List Moment → List (List Moment)
  | [], acc => if acc.isEmpty then [] else [acc.reverse]
  | m :: rest, acc =>
    if m.any (fun op => op.1.isMeas) then
      (acc.reverse ++ [m]) :: splitRoundsAux rest []
    else
      splitRoundsAux rest (m :: acc)

/-- Measurement rounds of a circuit. -/
def rounds (c : ScheduledCircuit) : List (List Moment) :=
  splitRoundsAux c []

/-- A moment consisting only of resets (and at least one operation). -/
def momentAllReset (m : Moment) : Bool :=
  !m.isEmpty && m.all (fun op => op.1.isReset)

/-- A moment consisting only of measurements (and at least one operation). -/
def momentAllMeas (m : Moment) : Bool :=
  !m.isEmpty && m.all (fun op => op.1.isMeas)

/-- A moment consisting only of two-qubit gates (and at least one
operation). -/
def momentAllTwoQubit (m : Moment) : Bool :=
  !m.isEmpty && m.all (fun op => op.1.isTwoQubit)

/-- A measurement round of the stated length whose first moment is made of
resets, whose last moment is made of measurements, and whose intermediate
moments are the two-qubit layers of one syndrome-extraction round. -/
def syndromeRound (n : ℕ) (r : List Moment) : Bool :=
  r.length == n &&
  (match r.head? with
   | some m => momentAllReset m
   | none => false) &&
  (match r.getLast? with
   | some m => momentAllMeas m
   | none => false) &&
  ((r.drop 1).dropLast.all momentAllTwoQubit)

/-- The Z-basis extended plaquette circuit, transcribed moment by moment from
the extended-stabilizers user guide (src/unnamed/part_004); it takes 8
moments. -/
def extendedPlaquetteCircuit : ScheduledCircuit :=
  [[(.R, [1]), (.RX, [3])],
   [(.CX, [3, 1]), (.R, [4])],
   [(.CX, [1, 4]), (.CZ, [3, 0])],
   [(.CZ, [4, 2])],
   [(.CZ, [3, 5])],
   [(.CX, [1, 3]), (.CZ, [4, 6])],
   [(.CX, [4, 1])],
   [(.MX, [4])]]

/-- Modelled from the spec: a regular (non-extended) plaquette measures its
stabilizer in 6 moments (reset, four two-qubit layers, measurement); spec,
section 4.3 and the user guide in src/unnamed/part_004. -/
def regularPlaquetteCircuit : ScheduledCircuit :=
  [[(.RX, [2])],
   [(.CZ, [2, 0])],
   [(.CZ, [2, 1])],
   [(.CZ, [2, 3])],
   [(.CZ, [2, 4])],
   [(.MX, [2])]]

/-- An idle moment holds no operations. -/
def isIdleMoment (m : Moment) : Bool :=
  m.isEmpty

/-- Modelled from the spec: the Block Compiler inserts idle (no-op) moments
into a regular patch adjacent to an extended plaquette so that the patch
reaches the moment count of the extended plaquette; spec, sections 4.3 and
4.4 step (3). -/
def pad_to_moments (c : ScheduledCircuit) (n : ℕ) : ScheduledCircuit :=
  c ++ List.replicate (n - c.length) []

/-- Errors of the compilation pipeline (spec, section 7): unsupported kinds
are reported with the offending kind, scheduling conflicts with the moment
index and qubit. -/
inductive CompileErr
  | unsupportedKind (kind : CubeKind)
  | schedulingConflict (momentIndex : ℕ) (qubit : ℕ)

/-- Concatenate two local circuits moment by moment (spec, section 4.4
step (4)). -/
def spliceMoments : ScheduledCircuit → ScheduledCircuit → ScheduledCircuit
  | [], c2 => c2
  | c1, [] => c1
  | m1 :: r1, m2 :: r2 => (m1 ++ m2) :: spliceMoments r1 r2

/-- Merge all local circuits into one global moment sequence. -/
def rawMerge (locals : List ScheduledCircuit) : ScheduledCircuit :=
  locals.foldl spliceMoments []

/-- First qubit index operated on twice inside a moment, if any. -/
def dupQubit (m : Moment) : Option ℕ :=
  (momentQubits m).find? (fun q => 1 < (momentQubits m).count q)

/-- First scheduling conflict of a circuit, reported as moment index and
qubit. -/
def firstConflictFrom : ℕ → ScheduledCircuit → Option (ℕ × ℕ)
  | _, [] => none
  | i, m :: rest =>
    match dupQubit m with
    | some q => some (i, q)
    | none => firstConflictFrom (i + 1) rest

/-- First scheduling conflict of a circuit, if any. -/
def firstConflict (c : ScheduledCircuit) : Option (ℕ × ℕ) :=
  firstConflictFrom 0 c

/-- Modelled from the spec: splice all local circuits into one global circuit,
failing with a fatal scheduling-conflict error if two operations claim the
same qubit in the same moment; spec, section 4.4 step (4). -/
def assemble (locals : List ScheduledCircuit) : Except CompileErr ScheduledCircuit :=
  let merged := rawMerge locals
  match firstConflict merged with
  | some c => .error (.schedulingConflict c.1 c.2)
  | none => .ok merged

/-- Modelled from the spec: the Block Compiler is a small registry of builder
functions keyed by kind; boundary-basis cubes have a registered builder (here
producing the embedded memory round circuit), while the half-cube and Port
entries are not registered; spec, sections 4.3 and 9. -/
def builderRegistry : CubeKind → Option (ℕ → ScheduledCircuit)
  | .ZXCube _ _ _ => some (fun _ => memoryCircuit_k1)
  | .YHalfCube => none
  | .Port => none

/-- Look up the builder of one cube, failing with an unsupported-kind error
naming the offending kind when no builder is registered. -/
def localCircuitOf (k : ℕ) (e : Position3D × CubeKind × String) :
    Except CompileErr ScheduledCircuit :=
  match builderRegistry e.2.1 with
  | some b => .ok (b k)
  | none => .error (.unsupportedKind e.2.1)

/-- Look up the builders of all cubes in order, stopping at the first
unsupported kind. -/
def localCircuits (k : ℕ) :
    List (Position3D × CubeKind × String) → Except CompileErr (List ScheduledCircuit)
  | [] => .ok []
  | e :: rest => do
    let c ← localCircuitOf k e
    let cs ← localCircuits k rest
    .ok (c :: cs)

/-- Modelled from the spec: compile a block graph at scale k by invoking the
registered builder of every cube and splicing the resulting local circuits
into one global ScheduledCircuit; spec, sections 4.3 and 4.4. -/
def compile_block_graph (g : BlockGraph) (k : ℕ) : Except CompileErr ScheduledCircuit := do
  let locals ← localCircuits k g.cubes
  assemble locals

/-- The six axis-adjacent neighbors of a position, enumerated in the fixed
Position3D lexicographic order. -/
def neighborsLex (p : Position3D) : List Position3D :=
  [p.shiftDir .X (-1), p.shiftDir .Y (-1), p.shiftDir .Z (-1),
   p.shiftDir .Z 1, p.shiftDir .Y 1, p.shiftDir .X 1]

/-- Predicate selecting the pipe entry joining two positions, in either
orientation. -/
def pipeMatcher (a b : Position3D) (e : Position3D × Position3D × PipeKind) : Bool :=
  (e.1 == a && e.2.1 == b) || (e.1 == b && e.2.1 == a)

/-- Kind of the pipe joining two positions, if any. -/
def pipeLookup (g : BlockGraph) (a b : Position3D) : Option PipeKind :=
  (g.pipes.find? (pipeMatcher a b)).map (fun e => e.2.2)

/-- A correlation surface of basis b can occupy a pipe only when one of the
pipe walls carries that basis. -/
def PipeKind.wallOk (k : PipeKind) (b : Basis) : Bool :=
  k.wallA == b || k.wallB == b

/-- Basis carried after traversing a pipe: flipped exactly on Hadamard
pipes. -/
def PipeKind.applyH (k : PipeKind) (b : Basis) : Basis :=
  if k.hadamard then b.flip else b

/-- Modelled from the spec: a cube admits the continuation of a flow in basis
b when b occurs among its boundary bases; Port and half cubes admit every
flow; spec, section 4.1 (locally-consistent continuation). -/
def CubeKind.admits : CubeKind → Basis → Bool
  | .Port, _ => true
  | .YHalfCube, _ => true
  | .ZXCube bX bY bZ, b => bX == b || bY == b || bZ == b

/-- Modelled from the spec: the locally-consistent continuations of a flow of
basis b standing at a position, enumerated over the neighbors in Position3D
lexicographic order: a continuation traverses an existing pipe whose wall
bases admit b, flips the basis on Hadamard pipes, and requires the target
cube to admit the resulting basis; spec, section 4.1. -/
def stepCandidates (g : BlockGraph) (pos : Position3D) (b : Basis) :
    List (Position3D × Basis) :=
  (neighborsLex pos).foldr
    (fun q acc =>
      match pipeLookup g pos q with
      | none => acc
      | some pk =>
        if pk.wallOk b then
          match kindAt g q with
          | some ck => if ck.admits (pk.applyH b) then (q, pk.applyH b) :: acc else acc
          | none => acc
        else acc)
    []

/-- A correlation surface, recorded as the Pauli labels attached to the
positions the flow traverses, in traversal order. -/
abbrev CorrelationSurface := List (Position3D × Basis)

/-- Modelled from the spec: frontier exploration of the dual representation:
from the current position the flow branches over every locally-consistent
continuation (in the fixed lexicographic order), completes when it reaches
another open Port, and abandons branches that revisit a position or run out
of continuations; spec, section 4.1.  Fuel bounds the recursion depth; the
search is invoked with more fuel than there are cubes, which a non-revisiting
walk can never exhaust. -/
def propagate (g : BlockGraph) :
    ℕ → Position3D → Basis → List Position3D → CorrelationSurface →
    List CorrelationSurface
  | 0, _, _, _, _ => []
  | fuel + 1, pos, b, visited, surf =>
    (stepCandidates g pos b).flatMap fun c =>
      if c.1 ∈ visited then []
      else if kindAt g c.1 == some CubeKind.Port then [surf ++ [c]]
      else propagate g fuel c.1 c.2 (c.1 :: visited) (surf ++ [c])

/-- Modelled from the spec: the candidate flows leaving one open Port; the
candidate starting bases are tried in basis-label order, X before Z; spec,
section 4.1. -/
def surfacesFromPort (g : BlockGraph) (p : Position3D) : List CorrelationSurface :=
  [Basis.X, Basis.Z].flatMap fun b =>
    propagate g (g.cubes.length + 1) p b [p] [(p, b)]

/-- The open ports of a graph, in cube-insertion order. -/
def portsOf (g : BlockGraph) : List Position3D :=
  g.cubes.filterMap (fun e => if e.2.1 == CubeKind.Port then some e.1 else none)

/-- The open ports of a graph in the fixed Position3D lexicographic traversal
order. -/
def sortedPorts (g : BlockGraph) : List Position3D :=
  (portsOf g).mergeSort posLE

/-- Modelled from the spec: find_correlation_surfaces starts from every open
Port in the fixed lexicographic traversal order, collects the consistent
flows of each (starting bases in basis-label order), and deduplicates the
completed flows; spec, section 4.1.  The search is a total function: a port
reachable by no consistent flow contributes an empty result rather than an
error. -/
def find_correlation_surfaces (g : BlockGraph) : List CorrelationSurface :=
  ((sortedPorts g).flatMap (surfacesFromPort g)).eraseDups

/-- Modelled from the spec: the judgment that a list of steps is a
locally-consistent Pauli flow of the graph: each step traverses an existing
pipe whose walls admit the current basis, Hadamard pipes flip the basis, the
target cube admits the resulting basis, and the flow completes exactly when
it reaches an open Port; spec, section 4.1. -/
inductive FlowSteps (g : BlockGraph) : Position3D → Basis → List (Position3D × Basis) → Prop
  | reachPort {pos q : Position3D} {pk : PipeKind} {b : Basis} :
      pipeLookup g pos q = some pk → pk.wallOk b = true →
      kindAt g q = some CubeKind.Port →
      FlowSteps g pos b [(q, pk.applyH b)]
  | step {pos q : Position3D} {pk : PipeKind} {b : Basis} {ck : CubeKind}
      {rest : List (Position3D × Basis)} :
      pipeLookup g pos q = some pk → pk.wallOk b = true →
      kindAt g q = some ck → ck.admits (pk.applyH b) = true →
      FlowSteps g q (pk.applyH b) rest →
      FlowSteps g pos b ((q, pk.applyH b) :: rest)

/-- Both endpoints carry cubes and the pipe kind is consistent with both of
them (Hadamard flag taken into account). -/
def pipeEndpointsOk (g : BlockGraph) (pa pb : Position3D) (k : PipeKind) : Bool :=
  match kindAt g pa, kindAt g pb with
  | some c1, some c2 => compatibleAt k c1 false && compatibleAt k c2 true
  | _, _ => false

/-- A concrete template used to instantiate the template-growth theorem: both
axes grow as 2 k + 2, the footprint of the standard qubit patch. -/
def exampleTemplate : Template :=
  ⟨⟨⟨2, 2⟩, ⟨2, 2⟩⟩, fun _ r c => r + c⟩

/-- A concrete graph whose open Port is reachable by no locally-consistent
flow: its only pipe has two Z walls, so an X flow cannot enter it, while the
cube behind it has all-X boundaries, so a Z flow cannot continue there. -/
def stuckPortGraph : BlockGraph :=
  ⟨[(⟨0, 0, 0⟩, .Port, "stuck"), (⟨1, 0, 0⟩, .ZXCube .X .X .X, "blocker")],
   [(⟨0, 0, 0⟩, ⟨1, 0, 0⟩, ⟨.X, .Z, .Z, false⟩)]⟩

/-- A two-port graph, cubes and pipe listed in one insertion order. -/
def portPairGraphA : BlockGraph :=
  ⟨[(⟨0, 0, 0⟩, .Port, "in"), (⟨1, 0, 0⟩, .Port, "out")],
   [(⟨0, 0, 0⟩, ⟨1, 0, 0⟩, ⟨.X, .Z, .X, false⟩)]⟩

/-- The same graph as portPairGraphA with the cubes listed in the opposite
insertion order. -/
def portPairGraphB : BlockGraph :=
  ⟨[(⟨1, 0, 0⟩, .Port, "out"), (⟨0, 0, 0⟩, .Port, "in")],
   [(⟨0, 0, 0⟩, ⟨1, 0, 0⟩, ⟨.X, .Z, .X, false⟩)]⟩

/-- A graph containing a half cube, whose kind has no registered builder. -/
def halfCubeGraph : BlockGraph :=
  ⟨[(⟨0, 0, 0⟩, .YHalfCube, "half")], []⟩

/-- Two one-moment local circuits that both operate on qubit 1 in the same
moment: a scheduling conflict. -/
def conflictLocals : List ScheduledCircuit :=
  [[[(.CX, [0, 1])]], [[(.CZ, [1, 2])]]]


/-- Proof invariant for the lattice reader: every pipe endpoint is occupied,
and the Port labels present are the images of a duplicate-free set of indices
all below the running port counter. -/
def PortInv (g : BlockGraph) (idx : ℕ) : Prop :=
  (∀ e ∈ g.pipes, (kindAt g e.1).isSome ∧ (kindAt g e.2.1).isSome) ∧
  ∃ S : List ℕ, portLabels g = S.map portLabel ∧ S.Nodup ∧ ∀ i ∈ S, i < idx

/-- Input nodes of the concrete lattice-reader run used as a witness. -/
def latticeNodesW : List (Position3D × CubeKind × String) :=
  [(⟨0, 0, 0⟩, .ZXCube .Z .X .Z, "n")]

/-- Input edges of the concrete lattice-reader run used as a witness; the
edge head is the declared cube, the tail position is free and receives an
automatic Port. -/
def latticeEdgesW : List LatticeEdge :=
  [⟨⟨0, 0, 0⟩, ⟨1, 0, 0⟩, ⟨.X, .X, .Z, false⟩⟩]

/-- Result graph of the concrete lattice-reader run used as a witness. -/
def latticeResultW : BlockGraph :=
  ⟨[(⟨0, 0, 0⟩, .ZXCube .Z .X .Z, "n"), (⟨1, 0, 0⟩, .Port, portLabel 0)],
   [(⟨0, 0, 0⟩, ⟨1, 0, 0⟩, ⟨.X, .X, .Z, false⟩)]⟩

/-- Claim C9: round_or_fail returns round(value) exactly when
abs(value - round(value)) is at most atol, raises a ValueError identifying
the value exactly when that distance exceeds atol, and never returns any
value other than round(value). -/
theorem round_or_fail_spec (value atol : ℚ) :
    (round_or_fail value atol = Except.ok (pyRound value) ↔
      |value - (pyRound value : ℚ)| ≤ atol) ∧
    (round_or_fail value atol = Except.error ⟨value⟩ ↔
      |value - (pyRound value : ℚ)| > atol) ∧
    (∀ n : ℤ, round_or_fail value atol = Except.ok n → n = pyRound value) := by
  by_cases h : |value - (pyRound value : ℚ)| > atol
  · refine ⟨?_, ?_, ?_⟩
    · simp only [round_or_fail, if_pos h]
      constructor
      · intro hcontr
        exact absurd hcontr (by simp)
      · intro hle
        linarith
    · simp only [round_or_fail, if_pos h]
      exact ⟨fun _ => h, fun _ => trivial⟩
    · intro n hn
      simp [round_or_fail, if_pos h] at hn
  · refine ⟨?_, ?_, ?_⟩
    · simp only [round_or_fail, if_neg h]
      constructor
      · intro _
        linarith [not_lt.mp h]
      · intro _
        trivial
    · simp only [round_or_fail, if_neg h]
      constructor
      · intro hcontr
        exact absurd hcontr (by simp)
      · intro hgt
        exact absurd hgt h
    · intro n hn
      simp only [round_or_fail, if_neg h, Except.ok.injEq] at hn
      exact hn.symm

/-- Witness for C9: at value 1/10 the distance to the rounded value is within
the default tolerance and round_or_fail returns the rounded value. -/
theorem round_or_fail_spec_witness :
    round_or_fail (1 / 10) (35 / 100) = Except.ok (pyRound (1 / 10)) := by
  have h0 : pyRound (1 / 10) = 0 := by
    norm_num [pyRound, Int.floor_eq_iff]
  exact (round_or_fail_spec (1 / 10) (35 / 100)).1.mpr
    (by rw [h0]; norm_num [abs_of_nonneg])

/-- Claim C7: instantiating any template at any scale yields an array whose
row count and row lengths equal the two declared linear growth functions
evaluated at that scale, and for smaller against larger scales the dimensions
are componentwise monotone. -/
theorem template_growth (t : Template) (k1 k2 : ℕ) (h : k1 < k2) :
    (∀ k, (t.instantiate k).length = t.scalable_shape.y.eval k ∧
      ∀ row ∈ t.instantiate k, row.length = t.scalable_shape.x.eval k) ∧
    (t.instantiate k1).length ≤ (t.instantiate k2).length ∧
    (∀ r1 ∈ t.instantiate k1, ∀ r2 ∈ t.instantiate k2, r1.length ≤ r2.length) := by
  have hdim : ∀ k, (t.instantiate k).length = t.scalable_shape.y.eval k ∧
      ∀ row ∈ t.instantiate k, row.length = t.scalable_shape.x.eval k := by
    intro k
    constructor
    · simp [Template.instantiate]
    · intro row hrow
      simp only [Template.instantiate, List.mem_map] at hrow
      obtain ⟨r, _, rfl⟩ := hrow
      simp
  have hmono : ∀ f : LinearFunction, f.eval k1 ≤ f.eval k2 := by
    intro f
    exact Nat.add_le_add_right (Nat.mul_le_mul_left f.slope h.le) f.offset
  refine ⟨hdim, ?_, ?_⟩
  · rw [(hdim k1).1, (hdim k2).1]
    exact hmono t.scalable_shape.y
  · intro r1 h1 r2 h2
    rw [(hdim k1).2 r1 h1, (hdim k2).2 r2 h2]
    exact hmono t.scalable_shape.x

/-- Witness for C7: the example template instantiated at scales 1 and 2. -/
theorem template_growth_witness :
    (exampleTemplate.instantiate 1).length ≤ (exampleTemplate.instantiate 2).length :=
  (template_growth exampleTemplate 1 2 (by decide)).2.1

/-- Claim C2: an ordinary 6-moment patch adjacent to an extended plaquette
(8 moments, as in the user guide circuit) is padded to 8 moments: its
original 6 moments are unchanged and exactly 2 idle moments are inserted. -/
theorem junction_padding (c : ScheduledCircuit) (h : c.length = 6) :
    extendedPlaquetteCircuit.length = 8 ∧
    regularPlaquetteCircuit.length = 6 ∧
    (pad_to_moments c extendedPlaquetteCircuit.length).length = 8 ∧
    (pad_to_moments c extendedPlaquetteCircuit.length).take 6 = c ∧
    ((pad_to_moments c extendedPlaquetteCircuit.length).drop 6).length = 2 ∧
    ((pad_to_moments c extendedPlaquetteCircuit.length).drop 6).all isIdleMoment = true := by
  have hlen8 : extendedPlaquetteCircuit.length = 8 := by decide
  refine ⟨hlen8, by decide, ?_, ?_, ?_, ?_⟩
  · simp [pad_to_moments, hlen8, h]
  · rw [pad_to_moments, hlen8, h, ← h]
    exact List.take_left c _
  · simp [pad_to_moments, hlen8, h]
  · have hd : List.drop 6 (c ++ List.replicate (8 - c.length) ([] : Moment))
        = List.replicate (8 - c.length) ([] : Moment) := by
      conv_lhs => rw [show (6 : ℕ) = c.length from h.symm]
      exact List.drop_left c _
    rw [pad_to_moments, hlen8, hd, h]
    decide

/-- Witness for C2: the modelled regular plaquette circuit itself. -/
theorem junction_padding_witness :
    (pad_to_moments regularPlaquetteCircuit extendedPlaquetteCircuit.length).take 6 =
      regularPlaquetteCircuit :=
  (junction_padding regularPlaquetteCircuit (by decide)).2.2.2.1

/-- Counterexample to claim C1: in the circuit emitted for the single-cube
memory BlockGraph at scale k = 1 (transcribed from the gallery notebook),
the measurement rounds do not have 6 moments each. -/
theorem memory_round_not_six :
    ∃ r ∈ rounds memoryCircuit_k1, r.length ≠ 6 := by
  decide

/-- Claim C1 (amended): the circuit of the single-cube memory BlockGraph at
scale k = 1 splits into measurement rounds of exactly 7 moments each (the
depth-7 syndrome-extraction rounds documented in the gallery notebook), each
round starting with a moment of resets, ending with a moment of measurements,
and with every intermediate moment made of two-qubit gates. -/
theorem memory_rounds_are_depth_seven :
    (rounds memoryCircuit_k1).length = 3 ∧
    (rounds memoryCircuit_k1).all (syndromeRound 7) = true := by
  constructor
  · decide
  · decide

/-- A circuit has no conflict exactly when every moment is duplicate-free. -/
theorem firstConflictFrom_eq_none (i : ℕ) (c : ScheduledCircuit) :
    firstConflictFrom i c = none ↔ ∀ m ∈ c, dupQubit m = none := by
  induction c generalizing i with
  | nil => simp [firstConflictFrom]
  | cons m rest ih =>
    simp only [firstConflictFrom]
    cases hd : dupQubit m with
    | some q => simp [hd]
    | none => simp [hd, ih]

/-- Absence of a duplicate qubit report is exactly duplicate-freedom of the
moment. -/
theorem dupQubit_eq_none (m : Moment) : dupQubit m = none ↔ (momentQubits m).Nodup := by
  simp only [dupQubit, List.find?_eq_none, decide_eq_true_eq]
  constructor
  · intro h
    rw [List.nodup_iff_count_le_one]
    intro a
    by_cases ha : a ∈ momentQubits m
    · exact not_lt.mp (h a ha)
    · simp [List.count_eq_zero_of_not_mem ha]
  · intro h a ha
    exact not_lt.mpr (List.nodup_iff_count_le_one.mp h a)

/-- Successful assembly yields exactly the conflict-free merged circuit. -/
theorem assemble_ok_iff (locals : List ScheduledCircuit) (sc : ScheduledCircuit) :
    assemble locals = .ok sc ↔
      firstConflict (rawMerge locals) = none ∧ sc = rawMerge locals := by
  unfold assemble
  cases h : firstConflict (rawMerge locals) with
  | none => simp [h, eq_comm]
  | some c => simp [h]

/-- Successful compilation factors through the builder lookups and the
assembly step. -/
theorem compile_ok_elim {g : BlockGraph} {k : ℕ} {sc : ScheduledCircuit}
    (h : compile_block_graph g k = .ok sc) :
    ∃ locals, localCircuits k g.cubes = .ok locals ∧
      assemble locals = .ok sc := by
  unfold compile_block_graph at h
  cases hm : localCircuits k g.cubes with
  | error e => rw [hm] at h; simp [Bind.bind, Except.bind] at h
  | ok ls =>
    rw [hm] at h
    simp only [Bind.bind, Except.bind] at h
    exact ⟨ls, rfl, h⟩

/-- When some cube kind of the list has no registered builder, the builder
lookup pass fails with an unsupported-kind error naming such a kind. -/
theorem mapM_unsupported (l : List (Position3D × CubeKind × String)) (k : ℕ)
    (hex : ∃ e ∈ l, builderRegistry e.2.1 = none) :
    ∃ kind2, (∃ e ∈ l, e.2.1 = kind2) ∧ builderRegistry kind2 = none ∧
      localCircuits k l = .error (.unsupportedKind kind2) := by
  induction l with
  | nil => simp at hex
  | cons e rest ih =>
    cases hb : builderRegistry e.2.1 with
    | none =>
      refine ⟨e.2.1, ⟨e, by simp, rfl⟩, hb, ?_⟩
      simp [localCircuits, localCircuitOf, hb, Bind.bind, Except.bind]
    | some b =>
      have hex2 : ∃ x ∈ rest, builderRegistry x.2.1 = none := by
        obtain ⟨x, hx, hxn⟩ := hex
        cases List.mem_cons.mp hx with
        | inl heq => rw [heq, hb] at hxn; cases hxn
        | inr h2 => exact ⟨x, h2, hxn⟩
      obtain ⟨kind2, ⟨x, hx, hxk⟩, hk2, hmap⟩ := ih hex2
      refine ⟨kind2, ⟨x, List.mem_cons_of_mem _ hx, hxk⟩, hk2, ?_⟩
      simp [localCircuits, localCircuitOf, hb, hmap, Bind.bind, Except.bind]

/-- Claim C8: compiling a graph containing a cube whose kind has no
registered builder entry fails with an unsupported-configuration error
identifying an offending kind, and no compiled circuit is observable. -/
theorem unsupported_kind_fails (g : BlockGraph) (k : ℕ)
    (h : ∃ e ∈ g.cubes, builderRegistry e.2.1 = none) :
    (∃ kind2, (∃ e ∈ g.cubes, e.2.1 = kind2) ∧ builderRegistry kind2 = none ∧
      compile_block_graph g k = .error (.unsupportedKind kind2)) ∧
    ∀ sc, compile_block_graph g k ≠ .ok sc := by
  obtain ⟨kind2, hmem, hreg, hmap⟩ := mapM_unsupported g.cubes k h
  have hc : compile_block_graph g k = .error (.unsupportedKind kind2) := by
    unfold compile_block_graph
    rw [hmap]
    simp [Bind.bind, Except.bind]
  refine ⟨⟨kind2, hmem, hreg, hc⟩, fun sc hsc => ?_⟩
  rw [hc] at hsc
  cases hsc

/-- Witness for C8: compiling the half-cube graph fails with the error naming
the half-cube kind and produces no circuit. -/
theorem unsupported_kind_fails_witness :
    compile_block_graph halfCubeGraph 1 =
      Except.error (CompileErr.unsupportedKind CubeKind.YHalfCube) ∧
    compile_block_graph halfCubeGraph 1 ≠ Except.ok [] :=
  ⟨by rfl,
   (unsupported_kind_fails halfCubeGraph 1
     ⟨(⟨0, 0, 0⟩, .YHalfCube, "half"), by simp [halfCubeGraph], rfl⟩).2 []⟩

/-- Claim C3: every successfully compiled circuit has duplicate-free moments
(no two operations in one moment touch the same qubit), and splicing local
circuits that claim the same qubit in the same moment fails with a fatal
scheduling-conflict error. -/
theorem no_scheduling_conflicts (g : BlockGraph) (k : ℕ)
    (locals2 : List ScheduledCircuit) :
    (∀ sc, compile_block_graph g k = .ok sc → ∀ m ∈ sc, (momentQubits m).Nodup) ∧
    ((∃ m ∈ rawMerge locals2, ¬(momentQubits m).Nodup) →
      ∃ i q, assemble locals2 = .error (.schedulingConflict i q)) := by
  constructor
  · intro sc hsc m hm
    obtain ⟨locals, hmap, hasm⟩ := compile_ok_elim hsc
    obtain ⟨hnone, hsc2⟩ := (assemble_ok_iff locals sc).mp hasm
    subst hsc2
    exact (dupQubit_eq_none m).mp ((firstConflictFrom_eq_none 0 _).mp hnone m hm)
  · intro hex
    cases hq : firstConflict (rawMerge locals2) with
    | none =>
      exfalso
      obtain ⟨m, hm, hnd⟩ := hex
      exact hnd ((dupQubit_eq_none m).mp
        ((firstConflictFrom_eq_none 0 _).mp hq m hm))
    | some pair =>
      exact ⟨pair.1, pair.2, by simp [assemble, hq]⟩

/-- Witness for C3: two local circuits both operating on qubit 1 in moment 0
make assembly fail with the scheduling conflict naming that moment and
qubit. -/
theorem no_scheduling_conflicts_witness :
    assemble conflictLocals = Except.error (CompileErr.schedulingConflict 0 1) := by
  have _h := (no_scheduling_conflicts emptyGraph 1 conflictLocals).2 (by decide)
  rfl

/-- Inversion of a successful add_cube: the cube is appended, pipes are
unchanged, and the position was free. -/
theorem add_cube_ok_inv {g g2 : BlockGraph} {p : Position3D} {k : CubeKind}
    {l : String} (h : add_cube g p k l = .ok g2) :
    g2.cubes = g.cubes ++ [(p, k, l)] ∧ g2.pipes = g.pipes ∧ kindAt g p = none := by
  unfold add_cube at h
  by_cases hocc : (kindAt g p).isSome
  · rw [if_pos hocc] at h; cases h
  · rw [if_neg hocc] at h
    cases h
    exact ⟨rfl, rfl, Option.not_isSome_iff_eq_none.mp hocc⟩

/-- Inversion of a successful add_pipe: the pipe is appended, cubes are
unchanged, the endpoints are adjacent and both occupied. -/
theorem add_pipe_ok_inv {g g2 : BlockGraph} {pa pb : Position3D} {k : PipeKind}
    (h : add_pipe g pa pb k = .ok g2) :
    g2.cubes = g.cubes ∧ g2.pipes = g.pipes ++ [(pa, pb, k)] ∧
    manhattan_distance pa pb = 1 ∧ (kindAt g pa).isSome ∧ (kindAt g pb).isSome := by
  unfold add_pipe at h
  cases h1 : kindAt g pa with
  | none => rw [h1] at h; cases h
  | some c1 =>
    cases h2 : kindAt g pb with
    | none => rw [h1, h2] at h; cases h
    | some c2 =>
      rw [h1, h2] at h
      dsimp only at h
      by_cases hd : manhattan_distance pa pb ≠ 1
      · rw [if_pos hd] at h; cases h
      · rw [if_neg hd] at h
        by_cases hc : ¬(compatibleAt k c1 false && compatibleAt k c2 true)
        · rw [if_pos hc] at h; cases h
        · rw [if_neg hc] at h
          cases h
          exact ⟨rfl, rfl, not_ne_iff.mp hd, by simp [h1], by simp [h2]⟩

/-- Invariant propagation: any graph grown from a graph whose pipes all join
adjacent positions keeps that property under every build operation. -/
theorem buildGraph_pipes_adjacent_aux (ops : List BuildOp) :
    ∀ g0 : BlockGraph, (∀ e ∈ g0.pipes, manhattan_distance e.1 e.2.1 = 1) →
    ∀ e ∈ (ops.foldl applyOp g0).pipes, manhattan_distance e.1 e.2.1 = 1 := by
  induction ops with
  | nil => intro g0 h; simpa using h
  | cons op rest ih =>
    intro g0 h
    simp only [List.foldl_cons]
    apply ih
    cases op with
    | addCube p kk l =>
      simp only [applyOp]
      cases hc : add_cube g0 p kk l with
      | ok g2 =>
        intro e he
        rw [(add_cube_ok_inv hc).2.1] at he
        exact h e he
      | error err => exact h
    | addPipe p1 p2 kk =>
      simp only [applyOp]
      cases hc : add_pipe g0 p1 p2 kk with
      | ok g2 =>
        intro e he
        obtain ⟨-, hp, hd, -, -⟩ := add_pipe_ok_inv hc
        rw [hp] at he
        rcases List.mem_append.mp he with h1 | h2
        · exact h e h1
        · rw [List.mem_singleton.mp h2]
          exact hd
      | error err => exact h

/-- Claim C4: every graph reachable by build operations has only pipes whose
endpoints are at Manhattan distance exactly 1, and add_pipe fails whenever an
endpoint lacks a cube, the endpoints are not adjacent, or the pipe kind is
inconsistent with the endpoint cubes (Hadamard flag taken into account). -/
theorem pipe_adjacency_invariant (ops : List BuildOp) (g : BlockGraph)
    (pa pb : Position3D) (k : PipeKind)
    (h : kindAt g pa = none ∨ kindAt g pb = none ∨ manhattan_distance pa pb ≠ 1 ∨
      pipeEndpointsOk g pa pb k = false) :
    (∀ e ∈ (buildGraph ops).pipes, manhattan_distance e.1 e.2.1 = 1) ∧
    ∃ err, add_pipe g pa pb k = .error err := by
  constructor
  · exact buildGraph_pipes_adjacent_aux ops emptyGraph (by simp [emptyGraph])
  · cases hA : kindAt g pa with
    | none => exact ⟨.missingEndpoint pa, by simp [add_pipe, hA]⟩
    | some c1 =>
      cases hB : kindAt g pb with
      | none => exact ⟨.missingEndpoint pb, by simp [add_pipe, hA, hB]⟩
      | some c2 =>
        by_cases hd : manhattan_distance pa pb ≠ 1
        · exact ⟨.notAdjacent pa pb (manhattan_distance pa pb),
            by simp only [add_pipe, hA, hB]; rw [if_pos hd]⟩
        · have hcompat : pipeEndpointsOk g pa pb k = false := by
            rcases h with h1 | h2 | h3 | h4
            · exact absurd h1 (by simp [hA])
            · exact absurd h2 (by simp [hB])
            · exact absurd h3 hd
            · exact h4
          have hc : (compatibleAt k c1 false && compatibleAt k c2 true) = false := by
            simpa [pipeEndpointsOk, hA, hB] using hcompat
          exact ⟨.basisMismatch pa pb k,
            by simp only [add_pipe, hA, hB]; rw [if_neg hd, if_pos (by simp [hc])]⟩

/-- Witness for C4: adding a pipe between two free, non-adjacent positions
fails with the missing-endpoint error. -/
theorem pipe_adjacency_invariant_witness :
    add_pipe emptyGraph ⟨0, 0, 0⟩ ⟨5, 0, 0⟩ ⟨.X, .X, .X, false⟩ =
      Except.error (GraphError.missingEndpoint ⟨0, 0, 0⟩) := by
  have _h := (pipe_adjacency_invariant [] emptyGraph ⟨0, 0, 0⟩ ⟨5, 0, 0⟩
    ⟨.X, .X, .X, false⟩ (Or.inl rfl)).2
  rfl

/-- Folding the digit list back recovers the value. -/
theorem ofDigitsRev_digitsRev : ∀ fuel n, n ≤ fuel → ofDigitsRev (digitsRev fuel n) = n := by
  intro fuel
  induction fuel with
  | zero =>
    intro n hn
    have h0 : n = 0 := Nat.le_zero.mp hn
    subst h0
    rfl
  | succ f ih =>
    intro n hn
    cases n with
    | zero => rfl
    | succ m =>
      have hdiv : (m + 1) / 10 ≤ f := by
        have h1 : (m + 1) / 10 < m + 1 := Nat.div_lt_self (Nat.succ_pos m) (by norm_num)
        omega
      show (m + 1) % 10 + 10 * ofDigitsRev (digitsRev f ((m + 1) / 10)) = m + 1
      rw [ih _ hdiv]
      exact Nat.mod_add_div (m + 1) 10

/-- Every entry of a digit list is a decimal digit. -/
theorem digitsRev_lt_ten : ∀ fuel n d, d ∈ digitsRev fuel n → d < 10 := by
  intro fuel
  induction fuel with
  | zero =>
    intro n d hd
    simp [digitsRev] at hd
  | succ f ih =>
    intro n d hd
    cases n with
    | zero => simp [digitsRev] at hd
    | succ m =>
      simp only [digitsRev, List.mem_cons] at hd
      rcases hd with h1 | h2
      · rw [h1]
        exact Nat.mod_lt _ (by norm_num)
      · exact ih _ _ h2

/-- Decimal digit characters of distinct digits are distinct. -/
theorem digitChar_inj_lt : ∀ d < 10, ∀ e < 10, Nat.digitChar d = Nat.digitChar e → d = e := by
  decide

/-- Mapping digit characters over digit lists is injective. -/
theorem map_digitChar_inj : ∀ l1 l2 : List ℕ, (∀ d ∈ l1, d < 10) → (∀ d ∈ l2, d < 10) →
    l1.map Nat.digitChar = l2.map Nat.digitChar → l1 = l2 := by
  intro l1
  induction l1 with
  | nil =>
    intro l2 _ _ h
    cases l2 with
    | nil => rfl
    | cons d s => simp at h
  | cons d s ih =>
    intro l2 h1 h2 h
    cases l2 with
    | nil => simp at h
    | cons e r =>
      simp only [List.map_cons, List.cons.injEq] at h
      have hd := digitChar_inj_lt d (h1 d (by simp)) e (h2 e (by simp)) h.1
      cases hd
      rw [ih r (fun x hx => h1 x (by simp [hx])) (fun x hx => h2 x (by simp [hx])) h.2]

/-- Decimal rendering is injective. -/
theorem natStr_inj : ∀ {m n : ℕ}, natStr m = natStr n → m = n := by
  have key : ∀ n : ℕ, n ≠ 0 →
      ∀ s : String, natStr n = s →
      s.data = ((digitsRev n n).map Nat.digitChar).reverse := by
    intro n hn s hs
    rw [← hs]
    simp [natStr, if_neg hn]
  intro m n h
  by_cases hm : m = 0 <;> by_cases hn : n = 0
  · rw [hm, hn]
  · exfalso
    have hd : (natStr n).data = ((digitsRev n n).map Nat.digitChar).reverse :=
      key n hn (natStr n) rfl
    rw [← h] at hd
    rw [hm] at hd
    have h0 : (natStr 0).data = ['0'] := rfl
    rw [h0] at hd
    have hmap : (digitsRev n n).map Nat.digitChar = ['0'] := by
      have := congrArg List.reverse hd
      simpa using this.symm
    have hdig : digitsRev n n = [0] := by
      refine map_digitChar_inj _ [0] (fun d hdm => digitsRev_lt_ten _ _ _ hdm) ?_ ?_
      · simp
      · simpa using hmap
    have hval := ofDigitsRev_digitsRev n n le_rfl
    rw [hdig] at hval
    have : (0 : ℕ) = n := by simpa [ofDigitsRev] using hval
    exact hn this.symm
  · exfalso
    have hd : (natStr m).data = ((digitsRev m m).map Nat.digitChar).reverse :=
      key m hm (natStr m) rfl
    rw [h] at hd
    rw [hn] at hd
    have h0 : (natStr 0).data = ['0'] := rfl
    rw [h0] at hd
    have hmap : (digitsRev m m).map Nat.digitChar = ['0'] := by
      have := congrArg List.reverse hd
      simpa using this.symm
    have hdig : digitsRev m m = [0] := by
      refine map_digitChar_inj _ [0] (fun d hdm => digitsRev_lt_ten _ _ _ hdm) ?_ ?_
      · simp
      · simpa using hmap
    have hval := ofDigitsRev_digitsRev m m le_rfl
    rw [hdig] at hval
    have : (0 : ℕ) = m := by simpa [ofDigitsRev] using hval
    exact hm this.symm
  · have hd1 : (natStr m).data = ((digitsRev m m).map Nat.digitChar).reverse :=
      key m hm (natStr m) rfl
    have hd2 : (natStr n).data = ((digitsRev n n).map Nat.digitChar).reverse :=
      key n hn (natStr n) rfl
    rw [h] at hd1
    have hrev : ((digitsRev m m).map Nat.digitChar).reverse =
        ((digitsRev n n).map Nat.digitChar).reverse := by
      rw [← hd1, hd2]
    have hmap : (digitsRev m m).map Nat.digitChar = (digitsRev n n).map Nat.digitChar :=
      List.reverse_injective hrev
    have hdig := map_digitChar_inj _ _ (fun d hdm => digitsRev_lt_ten _ _ _ hdm)
      (fun d hdm => digitsRev_lt_ten _ _ _ hdm) hmap
    have h1 := ofDigitsRev_digitsRev m m le_rfl
    have h2 := ofDigitsRev_digitsRev n n le_rfl
    rw [hdig] at h1
    rw [h1] at h2
    exact h2

/-- Automatic port labels with distinct indices are distinct. -/
theorem portLabel_inj : Function.Injective portLabel := by
  intro m n h
  have hd := congrArg String.data h
  simp only [portLabel, String.data_append] at hd
  have := List.append_cancel_left hd
  exact natStr_inj (String.ext this)

/-- A successful find gets preserved by appending entries. -/
theorem find?_append_isSome {α} {l1 : List α} {f : α → Bool} (l2 : List α)
    (h : (l1.find? f).isSome) : ((l1 ++ l2).find? f).isSome := by
  induction l1 with
  | nil => simp [List.find?] at h
  | cons a r ih =>
    cases hf : f a with
    | true => simp [List.find?, hf]
    | false =>
      simp only [List.find?, hf] at h
      simpa [List.find?, hf] using ih h

/-- Occupancy of a position only depends on the cube list. -/
theorem kindAt_congr {g g2 : BlockGraph} (h : g.cubes = g2.cubes) (p : Position3D) :
    kindAt g p = kindAt g2 p := by
  simp [kindAt, h]

/-- Appending a cube cannot free a position. -/
theorem kindAt_isSome_append {g g2 : BlockGraph} {rest : List (Position3D × CubeKind × String)}
    {p : Position3D} (hc : g2.cubes = g.cubes ++ rest) (h : (kindAt g p).isSome) :
    (kindAt g2 p).isSome := by
  have hf : ((g.cubes.find? fun e => e.1 == p)).isSome := by
    by_contra hn
    rw [Option.not_isSome_iff_eq_none] at hn
    simp [kindAt, hn] at h
  have hap := find?_append_isSome rest hf
  simp only [kindAt, hc]
  cases hx : (g.cubes ++ rest).find? (fun e => e.1 == p) with
  | none => rw [hx] at hap; simp at hap
  | some v => simp

/-- Port labels of a graph extended by one cube: extended by the new label
when the new cube is a Port, unchanged otherwise. -/
theorem portLabels_append {g g2 : BlockGraph} {p : Position3D} {k : CubeKind}
    {l : String} (hc : g2.cubes = g.cubes ++ [(p, k, l)]) :
    portLabels g2 = portLabels g ++ (if k == CubeKind.Port then [l] else []) := by
  simp only [portLabels, hc, List.filterMap_append]
  cases hk : (k == CubeKind.Port) with
  | true =>
    have hkk : k = CubeKind.Port := by simpa using hk
    simp [hkk]
  | false =>
    have hkk : ¬k = CubeKind.Port := by simpa using hk
    simp [hkk]

/-- The invariant survives the creation of a missing-endpoint Port. -/
theorem addPortIfMissing_inv {g : BlockGraph} {pos : Position3D} {idx : ℕ}
    {g2 : BlockGraph} {idx2 : ℕ}
    (h : addPortIfMissing g pos idx = .ok (g2, idx2))
    (hinv : PortInv g idx) : PortInv g2 idx2 ∧ idx ≤ idx2 := by
  unfold addPortIfMissing at h
  by_cases hocc : (kindAt g pos).isSome
  · rw [if_pos hocc] at h
    cases h
    exact ⟨hinv, le_rfl⟩
  · rw [if_neg hocc] at h
    cases hc : add_cube g pos .Port (portLabel idx) with
    | error err => rw [hc] at h; simp [Bind.bind, Except.bind] at h
    | ok gg =>
      rw [hc] at h
      simp only [Bind.bind, Except.bind, Except.ok.injEq, Prod.mk.injEq] at h
      obtain ⟨rfl, rfl⟩ := h
      obtain ⟨hcubes, hpipes, -⟩ := add_cube_ok_inv hc
      obtain ⟨hpe, S, hlab, hnd, hbound⟩ := hinv
      refine ⟨⟨?_, S ++ [idx], ?_, ?_, ?_⟩, Nat.le_succ idx⟩
      · intro e he
        rw [hpipes] at he
        obtain ⟨h1, h2⟩ := hpe e he
        exact ⟨kindAt_isSome_append hcubes h1, kindAt_isSome_append hcubes h2⟩
      · rw [portLabels_append hcubes, hlab]
        simp
      · rw [List.nodup_append]
        refine ⟨hnd, List.nodup_singleton idx, ?_⟩
        intro a ha hb
        rw [List.mem_singleton.mp hb] at ha
        exact absurd (hbound idx ha) (lt_irrefl idx)
      · intro i hi
        rcases List.mem_append.mp hi with h1 | h2
        · exact Nat.lt_succ_of_lt (hbound i h1)
        · rw [List.mem_singleton.mp h2]
          exact Nat.lt_succ_self idx

/-- The invariant survives the processing of one lattice edge. -/
theorem processEdge_inv {st : BlockGraph × ℕ} {e : LatticeEdge} {res : BlockGraph × ℕ}
    (h : processEdge st e = .ok res) (hinv : PortInv st.1 st.2) : PortInv res.1 res.2 := by
  unfold processEdge at h
  cases h1 : addPortIfMissing st.1 e.head st.2 with
  | error err => rw [h1] at h; simp [Bind.bind, Except.bind] at h
  | ok s1 =>
    rw [h1] at h
    simp only [Bind.bind, Except.bind] at h
    cases h2 : addPortIfMissing s1.1 e.tail s1.2 with
    | error err => rw [h2] at h; simp [Except.bind] at h
    | ok s2 =>
      rw [h2] at h
      simp only at h
      cases h3 : add_pipe s2.1 e.head e.tail e.kind with
      | error err => rw [h3] at h; simp at h
      | ok g3 =>
        rw [h3] at h
        simp only [Except.ok.injEq] at h
        obtain ⟨hinv1, -⟩ := addPortIfMissing_inv h1 hinv
        obtain ⟨hinv2, -⟩ := addPortIfMissing_inv h2 hinv1
        obtain ⟨hcubes, hpipes, -, hsa, hsb⟩ := add_pipe_ok_inv h3
        rw [← h]
        dsimp only
        obtain ⟨hpe, S, hlab, hnd, hbound⟩ := hinv2
        refine ⟨?_, S, ?_, hnd, hbound⟩
        · intro e2 he2
          rw [hpipes] at he2
          rcases List.mem_append.mp he2 with hm | hm
          · obtain ⟨ha, hb⟩ := hpe e2 hm
            rw [kindAt_congr hcubes.symm e2.1] at ha
            rw [kindAt_congr hcubes.symm e2.2.1] at hb
            exact ⟨ha, hb⟩
          · rw [List.mem_singleton.mp hm]
            refine ⟨?_, ?_⟩
            · show (kindAt g3 e.head).isSome = true
              rw [kindAt_congr hcubes e.head]
              exact hsa
            · show (kindAt g3 e.tail).isSome = true
              rw [kindAt_congr hcubes e.tail]
              exact hsb
        · rw [← hlab]
          simp [portLabels, hcubes]

/-- The invariant survives the whole edge fold. -/
theorem foldl_edges_inv : ∀ (edges : List LatticeEdge) (st res : BlockGraph × ℕ),
    edges.foldlM processEdge st = .ok res → PortInv st.1 st.2 → PortInv res.1 res.2 := by
  intro edges
  induction edges with
  | nil =>
    intro st res h hinv
    simp only [List.foldlM_nil, pure, Except.pure, Except.ok.injEq] at h
    rw [← h]
    exact hinv
  | cons e rest ih =>
    intro st res h hinv
    simp only [List.foldlM_cons, Bind.bind, Except.bind] at h
    cases hp : processEdge st e with
    | error err => rw [hp] at h; cases h
    | ok st2 =>
      rw [hp] at h
      exact ih st2 res h (processEdge_inv hp hinv)

/-- Adding port-free nodes to a pipe-free, port-free graph keeps it pipe-free
and port-free. -/
theorem addNodes_no_ports : ∀ (nodes : List (Position3D × CubeKind × String))
    (g g0 : BlockGraph), (∀ n ∈ nodes, n.2.1 ≠ CubeKind.Port) →
    addNodes g nodes = .ok g0 →
    g0.pipes = g.pipes ∧ portLabels g0 = portLabels g := by
  intro nodes
  induction nodes with
  | nil =>
    intro g g0 _ h
    simp only [addNodes, List.foldlM_nil, pure, Except.pure, Except.ok.injEq] at h
    rw [← h]
    exact ⟨rfl, rfl⟩
  | cons n rest ih =>
    intro g g0 hnp h
    simp only [addNodes, List.foldlM_cons, Bind.bind, Except.bind] at h
    cases hc : add_cube g n.1 n.2.1 n.2.2 with
    | error err => rw [hc] at h; cases h
    | ok g1 =>
      rw [hc] at h
      obtain ⟨hp1, hl1⟩ := ih g1 g0 (fun x hx => hnp x (by simp [hx])) h
      obtain ⟨hcubes, hpipes, -⟩ := add_cube_ok_inv hc
      refine ⟨by rw [hp1, hpipes], ?_⟩
      rw [hl1, portLabels_append hcubes]
      have : (n.2.1 == CubeKind.Port) = false := by
        simpa using hnp n (by simp)
      simp [this]

/-- Claim C10: for every accepted input, the lattice reader returns a graph
in which both endpoints of every pipe carry a cube, and the automatically
created Port cubes all carry distinct Port{port_index} labels. -/
theorem read_lattice_ports (nodes : List (Position3D × CubeKind × String))
    (edges : List LatticeEdge) (g : BlockGraph)
    (hnp : ∀ n ∈ nodes, n.2.1 ≠ CubeKind.Port)
    (hok : read_from_lattice_dicts nodes edges = .ok g) :
    (∀ e ∈ g.pipes, (kindAt g e.1).isSome ∧ (kindAt g e.2.1).isSome) ∧
    (portLabels g).Nodup := by
  unfold read_from_lattice_dicts at hok
  cases h0 : addNodes emptyGraph nodes with
  | error err => rw [h0] at hok; simp [Bind.bind, Except.bind] at hok
  | ok g0 =>
    rw [h0] at hok
    simp only [Bind.bind, Except.bind] at hok
    cases h1 : edges.foldlM processEdge (g0, 0) with
    | error err => rw [h1] at hok; cases hok
    | ok st =>
      rw [h1] at hok
      simp only [Except.ok.injEq] at hok
      obtain ⟨hpipes0, hports0⟩ := addNodes_no_ports nodes emptyGraph g0 hnp h0
      have hinv0 : PortInv g0 0 := by
        refine ⟨?_, [], ?_, List.nodup_nil, by simp⟩
        · intro e he
          rw [hpipes0] at he
          simp [emptyGraph] at he
        · rw [hports0]
          simp [portLabels, emptyGraph]
      have hfin := foldl_edges_inv edges (g0, 0) st h1 hinv0
      rw [← hok]
      obtain ⟨hpe, S, hlab, hnd, -⟩ := hfin
      exact ⟨hpe, by rw [hlab]; exact hnd.map portLabel_inj⟩

/-- Witness for C10: the concrete lattice input with one declared cube and
one edge whose free endpoint receives the automatic Port0 label. -/
theorem read_lattice_ports_witness : (portLabels latticeResultW).Nodup :=
  (read_lattice_ports latticeNodesW latticeEdgesW latticeResultW
    (by decide) (by rfl)).2

/-- Membership in the continuation list certifies one locally-consistent
step. -/
theorem stepCandidates_mem {g : BlockGraph} {pos : Position3D} {b : Basis}
    {q : Position3D} {b2 : Basis} (h : (q, b2) ∈ stepCandidates g pos b) :
    ∃ pk, pipeLookup g pos q = some pk ∧ pk.wallOk b = true ∧ b2 = pk.applyH b ∧
      ∃ ck, kindAt g q = some ck ∧ ck.admits b2 = true := by
  unfold stepCandidates at h
  generalize neighborsLex pos = l at h
  induction l with
  | nil => simp at h
  | cons a r ih =>
    simp only [List.foldr_cons] at h
    cases hp : pipeLookup g pos a with
    | none =>
      rw [hp] at h
      dsimp only at h
      exact ih h
    | some pk =>
      rw [hp] at h
      dsimp only at h
      by_cases hw : pk.wallOk b = true
      · rw [if_pos hw] at h
        cases hk : kindAt g a with
        | none =>
          rw [hk] at h
          dsimp only at h
          exact ih h
        | some ck =>
          rw [hk] at h
          dsimp only at h
          by_cases ha : ck.admits (pk.applyH b) = true
          · rw [if_pos ha] at h
            rcases List.mem_cons.mp h with h1 | h2
            · have hq : q = a := congrArg Prod.fst h1
              have hb2 : b2 = pk.applyH b := congrArg Prod.snd h1
              subst hq
              exact ⟨pk, hp, hw, hb2, ck, hk, by rw [hb2]; exact ha⟩
            · exact ih h2
          · rw [if_neg ha] at h
            exact ih h
      · rw [if_neg hw] at h
        exact ih h

/-- Soundness of the frontier search: every surface it returns extends the
accumulated prefix by a locally-consistent completed flow. -/
theorem propagate_sound {g : BlockGraph} : ∀ (fuel : ℕ) (pos : Position3D) (b : Basis)
    (visited : List Position3D) (surf sf : CorrelationSurface),
    sf ∈ propagate g fuel pos b visited surf →
    ∃ tail, sf = surf ++ tail ∧ FlowSteps g pos b tail := by
  intro fuel
  induction fuel with
  | zero =>
    intro pos b visited surf sf h
    simp [propagate] at h
  | succ f ih =>
    intro pos b visited surf sf h
    simp only [propagate] at h
    rw [List.mem_flatMap] at h
    obtain ⟨c, hc, hsf⟩ := h
    obtain ⟨q, b2⟩ := c
    obtain ⟨pk, hpl, hw, hb2, ck, hk, ha⟩ := stepCandidates_mem hc
    dsimp only at hsf
    by_cases hv : q ∈ visited
    · rw [if_pos hv] at hsf
      simp at hsf
    · rw [if_neg hv] at hsf
      by_cases hport : (kindAt g q == some CubeKind.Port) = true
      · rw [if_pos hport] at hsf
        have hkport : kindAt g q = some CubeKind.Port := by
          simpa using hport
        refine ⟨[(q, b2)], List.mem_singleton.mp hsf, ?_⟩
        rw [hb2]
        exact FlowSteps.reachPort hpl hw hkport
      · rw [if_neg hport] at hsf
        obtain ⟨tail2, htail2, hflow2⟩ := ih q b2 (q :: visited) (surf ++ [(q, b2)]) sf hsf
        refine ⟨(q, b2) :: tail2, by rw [htail2]; simp, ?_⟩
        rw [hb2]
        have hflow2b : FlowSteps g q (pk.applyH b) tail2 := by
          rw [← hb2]
          exact hflow2
        exact FlowSteps.step hpl hw hk (by rw [← hb2]; exact ha) hflow2b

/-- Claim C6: an open Port reachable by no locally-consistent Pauli flow
contributes an empty list of correlation surfaces; the (total) search
returns this empty value rather than raising. -/
theorem port_without_flow_empty (g : BlockGraph) (p : Position3D)
    (_hport : kindAt g p = some CubeKind.Port)
    (hnone : ∀ b tail, ¬FlowSteps g p b tail) :
    surfacesFromPort g p = [] := by
  rw [List.eq_nil_iff_forall_not_mem]
  intro sf hsf
  unfold surfacesFromPort at hsf
  rw [List.mem_flatMap] at hsf
  obtain ⟨b, -, hmem⟩ := hsf
  obtain ⟨tail, -, hflow⟩ := propagate_sound _ _ _ _ _ _ hmem
  exact hnone b tail hflow

/-- The only pipe of the stuck-port graph joins the port to the blocker
cube. -/
theorem stuck_pipeLookup {q : Position3D} {pk : PipeKind}
    (h : pipeLookup stuckPortGraph ⟨0, 0, 0⟩ q = some pk) :
    q = ⟨1, 0, 0⟩ ∧ pk = ⟨.X, .Z, .Z, false⟩ := by
  have hq : q = ⟨1, 0, 0⟩ ∨ ¬q = ⟨1, 0, 0⟩ := em _
  rcases hq with hq | hq
  · subst hq
    refine ⟨rfl, ?_⟩
    have : pipeLookup stuckPortGraph ⟨0, 0, 0⟩ ⟨1, 0, 0⟩ = some ⟨.X, .Z, .Z, false⟩ := by
      rfl
    rw [this] at h
    exact (Option.some.injEq .. ▸ h).symm
  · exfalso
    have hm : pipeMatcher ⟨0, 0, 0⟩ q (⟨0, 0, 0⟩, ⟨1, 0, 0⟩, ⟨.X, .Z, .Z, false⟩) = false := by
      simp only [pipeMatcher]
      have h1 : ((⟨1, 0, 0⟩ : Position3D) == (⟨0, 0, 0⟩ : Position3D)) = false := by decide
      have h2 : ((⟨1, 0, 0⟩ : Position3D) == q) = false := by
        rw [beq_eq_false_iff_ne]
        exact fun h3 => hq h3.symm
      simp [h1, h2]
    unfold pipeLookup stuckPortGraph at h
    rw [List.find?_cons_of_neg _ (by rw [hm]; simp)] at h
    simp [List.find?] at h

/-- No locally-consistent flow leaves the stuck port: an X flow is rejected
by the Z walls of the pipe, a Z flow by the all-X blocker cube. -/
theorem stuck_no_flow : ∀ (b : Basis) (tail : List (Position3D × Basis)),
    ¬FlowSteps stuckPortGraph ⟨0, 0, 0⟩ b tail := by
  intro b tail h
  cases h with
  | reachPort hpl hw hk =>
    obtain ⟨hq, hpk⟩ := stuck_pipeLookup hpl
    subst hq
    have : kindAt stuckPortGraph ⟨1, 0, 0⟩ = some (.ZXCube .X .X .X) := rfl
    rw [this] at hk
    simp at hk
  | step hpl hw hk ha hrest =>
    obtain ⟨hq, hpk⟩ := stuck_pipeLookup hpl
    subst hq
    subst hpk
    have hb : Basis.Z = b := by
      simpa [PipeKind.wallOk, beq_iff_eq] using hw
    subst hb
    have hck : kindAt stuckPortGraph ⟨1, 0, 0⟩ = some (.ZXCube .X .X .X) := rfl
    rw [hck] at hk
    have hck2 := Option.some.injEq .. ▸ hk
    rw [← hck2] at ha
    simp [CubeKind.admits, PipeKind.applyH, Basis.flip] at ha

/-- Witness for C6: the stuck port of the concrete graph yields the empty
list of correlation surfaces. -/
theorem port_without_flow_empty_witness :
    surfacesFromPort stuckPortGraph ⟨0, 0, 0⟩ = [] :=
  port_without_flow_empty stuckPortGraph ⟨0, 0, 0⟩ (by rfl) stuck_no_flow

/-- Finding the first match is representation-independent when at most one
entry matches. -/
theorem find?_perm {α} {p : α → Bool} : ∀ {l1 l2 : List α}, l1.Perm l2 →
    l1.countP p ≤ 1 → l1.find? p = l2.find? p := by
  intro l1 l2 h
  induction h with
  | nil => intro _; rfl
  | cons x hp ih =>
    intro hc
    by_cases hx : p x = true
    · rw [List.find?_cons_of_pos _ hx, List.find?_cons_of_pos _ hx]
    · rw [List.find?_cons_of_neg _ hx, List.find?_cons_of_neg _ hx]
      apply ih
      rw [List.countP_cons] at hc
      simp only [hx, if_false] at hc
      omega
  | swap x y l =>
    intro hc
    by_cases hx : p x = true <;> by_cases hy : p y = true
    · exfalso
      rw [List.countP_cons, List.countP_cons] at hc
      simp [hx, hy] at hc
    · rw [List.find?_cons_of_neg _ hy, List.find?_cons_of_pos _ hx,
        List.find?_cons_of_pos _ hx]
    · rw [List.find?_cons_of_pos _ hy, List.find?_cons_of_neg _ hx,
        List.find?_cons_of_pos _ hy]
    · rw [List.find?_cons_of_neg _ hy, List.find?_cons_of_neg _ hx,
        List.find?_cons_of_neg _ hx, List.find?_cons_of_neg _ hy]
  | trans h1 h2 ih1 ih2 =>
    intro hc
    rw [ih1 hc, ih2 (by rw [← h1.countP_eq]; exact hc)]

/-- Cube lookups agree on graphs holding the same cubes (in any order),
provided positions are not duplicated. -/
theorem kindAt_perm {g1 g2 : BlockGraph} (hc : g1.cubes.Perm g2.cubes)
    (hnd : (g1.cubes.map (fun e => e.1)).Nodup) (p : Position3D) :
    kindAt g1 p = kindAt g2 p := by
  unfold kindAt
  rw [find?_perm hc ?_]
  have h1 : g1.cubes.countP (fun e => e.1 == p) =
      (g1.cubes.map (fun e => e.1)).countP (fun x => x == p) := by
    rw [List.countP_map]
    rfl
  rw [h1]
  have h2 : (g1.cubes.map (fun e => e.1)).countP (fun x => x == p) =
      (g1.cubes.map (fun e => e.1)).count p := rfl
  rw [h2]
  exact List.nodup_iff_count_le_one.mp hnd p

/-- Pipe lookups agree on graphs holding the same pipes (in any order),
provided no two entries join the same pair. -/
theorem pipeLookup_perm {g1 g2 : BlockGraph} (hp : g1.pipes.Perm g2.pipes)
    (honce : ∀ a b, g1.pipes.countP (pipeMatcher a b) ≤ 1) (a b : Position3D) :
    pipeLookup g1 a b = pipeLookup g2 a b := by
  unfold pipeLookup
  rw [find?_perm hp (honce a b)]

/-- Pointwise-equal functions flatMap identically. -/
theorem flatMap_congruent {α β : Type} {l : List α} {f f2 : α → List β}
    (h : ∀ a ∈ l, f a = f2 a) : l.flatMap f = l.flatMap f2 := by
  induction l with
  | nil => rfl
  | cons a r ih =>
    simp only [List.flatMap_cons]
    rw [h a (by simp), ih (fun x hx => h x (by simp [hx]))]

/-- Continuation enumeration only depends on the lookup functions. -/
theorem stepCandidates_congr {g1 g2 : BlockGraph}
    (hk : ∀ p, kindAt g1 p = kindAt g2 p)
    (hpl : ∀ a b, pipeLookup g1 a b = pipeLookup g2 a b) (pos : Position3D) (b : Basis) :
    stepCandidates g1 pos b = stepCandidates g2 pos b := by
  unfold stepCandidates
  induction neighborsLex pos with
  | nil => rfl
  | cons a r ih =>
    simp only [List.foldr_cons]
    rw [ih, hpl pos a, hk a]

/-- The frontier search only depends on the lookup functions. -/
theorem propagate_congr {g1 g2 : BlockGraph}
    (hk : ∀ p, kindAt g1 p = kindAt g2 p)
    (hsc : ∀ pos b, stepCandidates g1 pos b = stepCandidates g2 pos b) :
    ∀ (fuel : ℕ) (pos : Position3D) (b : Basis) (visited : List Position3D)
      (surf : CorrelationSurface),
      propagate g1 fuel pos b visited surf = propagate g2 fuel pos b visited surf := by
  intro fuel
  induction fuel with
  | zero => intro pos b visited surf; rfl
  | succ f ih =>
    intro pos b visited surf
    simp only [propagate]
    rw [hsc pos b]
    apply flatMap_congruent
    intro c _
    by_cases hv : c.1 ∈ visited
    · rw [if_pos hv, if_pos hv]
    · rw [if_neg hv, if_neg hv, hk c.1]
      by_cases hq : (kindAt g2 c.1 == some CubeKind.Port) = true
      · rw [if_pos hq, if_pos hq]
      · rw [if_neg hq, if_neg hq, ih]

/-- Lexicographic comparison of positions is transitive. -/
theorem posLE_trans (a b c : Position3D) (h1 : posLE a b) (h2 : posLE b c) :
    posLE a c := by
  simp only [posLE] at h1 h2 ⊢
  split_ifs at h1 h2 ⊢ <;> simp_all <;> omega

/-- Lexicographic comparison of positions is total. -/
theorem posLE_total (a b : Position3D) : posLE a b || posLE b a := by
  simp only [posLE]
  split_ifs <;> simp_all <;> omega

/-- Lexicographic comparison of positions is antisymmetric. -/
theorem posLE_antisymm (a b : Position3D) (h1 : posLE a b = true)
    (h2 : posLE b a = true) : a = b := by
  obtain ⟨ax, ay, az⟩ := a
  obtain ⟨bx, bY, bz⟩ := b
  simp only [posLE] at h1 h2
  have : ax = bx ∧ ay = bY ∧ az = bz := by
    split_ifs at h1 h2 <;> simp_all <;> omega
  simp [this.1, this.2.1, this.2.2]

/-- Claim C5: find_correlation_surfaces is deterministic and order-stable:
it returns the same list, in the same order, on any two representations of
the same BlockGraph (same cubes and pipes, in any insertion order), and the
ports are traversed in the fixed Position3D lexicographic order; the starting
bases of the candidate flows are tried in basis-label order, X before Z, by
definition of surfacesFromPort. -/
theorem find_correlation_surfaces_stable (g1 g2 : BlockGraph)
    (hc : g1.cubes.Perm g2.cubes) (hp : g1.pipes.Perm g2.pipes)
    (hnd : (g1.cubes.map (fun e => e.1)).Nodup)
    (honce : ∀ a b, g1.pipes.countP (pipeMatcher a b) ≤ 1) :
    find_correlation_surfaces g1 = find_correlation_surfaces g2 ∧
    (sortedPorts g1).Pairwise (fun a b => posLE a b = true) := by
  have hk : ∀ p, kindAt g1 p = kindAt g2 p := kindAt_perm hc hnd
  have hpl : ∀ a b, pipeLookup g1 a b = pipeLookup g2 a b := pipeLookup_perm hp honce
  have hsc := stepCandidates_congr hk hpl
  have hprop := propagate_congr hk hsc
  have hsfp : ∀ p, surfacesFromPort g1 p = surfacesFromPort g2 p := by
    intro p
    unfold surfacesFromPort
    rw [hc.length_eq]
    exact flatMap_congruent (fun b _ => hprop _ _ _ _ _)
  have hpf : (portsOf g1).Perm (portsOf g2) := hc.filterMap _
  have hperm : (sortedPorts g1).Perm (sortedPorts g2) :=
    ((List.mergeSort_perm _ _).trans hpf).trans (List.mergeSort_perm _ _).symm
  have hs1 : (sortedPorts g1).Pairwise (fun a b => posLE a b = true) :=
    List.sorted_mergeSort posLE_trans posLE_total _
  have hs2 : (sortedPorts g2).Pairwise (fun a b => posLE a b = true) :=
    List.sorted_mergeSort posLE_trans posLE_total _
  have hports : sortedPorts g1 = sortedPorts g2 := by
    haveI : IsAntisymm Position3D (fun a b => posLE a b = true) := ⟨posLE_antisymm⟩
    exact List.eq_of_perm_of_sorted hperm hs1 hs2
  refine ⟨?_, hs1⟩
  unfold find_correlation_surfaces
  rw [hports]
  rw [flatMap_congruent (fun p _ => hsfp p)]

/-- Witness for C5: the two insertion orders of the two-port graph yield the
same correlation surfaces in the same order. -/
theorem find_correlation_surfaces_stable_witness :
    find_correlation_surfaces portPairGraphA = find_correlation_surfaces portPairGraphB :=
  (find_correlation_surfaces_stable portPairGraphA portPairGraphB
    (by decide) (by decide) (by decide)
    (by
      intro a b
      simp only [portPairGraphA, List.countP_cons, List.countP_nil]
      split <;> omega)).1

end TQEC
